import Mathlib

/-!
Verification development for the "Raw Tags" Picard plugin
(`picard_raw_tags.py`).  The plugin collects raw metadata tags from the
selected Files / Tracks / Albums (deduplicating file paths), formats each
tag value into display rows, and shows them in a tabbed dialog with a
synthetic ("path", path) row first.

The shallow embedding below mirrors the source:
  * `Value` is the closed sum of Python tag values the formatter
    distinguishes with `isinstance`: a `str`, a `list`, or any other
    object represented by its `str()` text.
  * `format_item` embeds `format_item` (source lines 30-39), with
    `pyStr` modelling Python's `str()` applied to its result and
    `pySlice` modelling the slice `s[:n]`.
  * `processTag` / `processed_list` embed the row-building loop of
    `RawTagTable.__init__` (source lines 70-78).
  * `recordRows` embeds the `("path", path)` prepend of
    `RawInfoDialog.__init__` (source lines 135-139).
  * `parseFile` / `parseTrack` / `parse_item` / `callbackRun` embed
    `ShowRawTags.callback` (source lines 147-181); the external
    `MutagenFile` parser is an abstract pure function
    `env : String → Except String (List TagEntry)` of the path, and the
    `log.error` call is an appended `LogEntry` of level "error".
-/

/-- The plugin name constant `PLUGIN_NAME` (source line 1). -/
def PLUGIN_NAME : String := "Raw Tags"

/-- The truncation cap `ItemCapLength` (source line 27). -/
def ItemCapLength : Nat := 1000

/-- A raw tag value as the formatter distinguishes it (`isinstance` checks
in `format_item`): a Python `str`, a Python `list` of values, or any other
("opaque") object, which the code only ever observes through `str()`, so it
is embedded as its textual representation. -/
inductive Value where
  | str (s : String)
  | list (items : List Value)
  | obj (text : String)

/-- A (key, value) tag entry as returned by the tag-parsing library. -/
abbrev TagEntry := String × Value

/-- Python slice `s[:n]`: the first `n` characters of `s` (all of `s` when
`n` exceeds its length). -/
def pySlice (s : String) (n : Nat) : String :=
  String.mk (s.toList.take n)

/-- The single-quote character, used by Python `repr` of strings. -/
def pyQuoteChar : Char := Char.ofNat 39

/-- Escaping of one character inside a Python string repr delimited by
quote character `q`. -/
def pyEscapeChar (q : Char) (c : Char) : String :=
  if c = Char.ofNat 92 then "\\\\"
  else if c = q then "\\" ++ String.singleton q
  else if c = Char.ofNat 10 then "\\n"
  else if c = Char.ofNat 13 then "\\r"
  else if c = Char.ofNat 9 then "\\t"
  else String.singleton c

/-- Python `repr` of a string: single-quoted (double-quoted when the string
contains a single quote but no double quote), with basic escapes. -/
def pyRepr (s : String) : String :=
  let q := if s.toList.contains pyQuoteChar && !(s.toList.contains '"')
           then '"' else pyQuoteChar
  String.singleton q ++ String.join (s.toList.map (pyEscapeChar q))
    ++ String.singleton q

/-- Python `str` of a list of strings: the bracketed, comma-separated list
of their reprs, e.g. `str(["a"])` is `[` `'a'` `]`. -/
def pyListRepr (l : List String) : String :=
  "[" ++ String.intercalate ", " (l.map pyRepr) ++ "]"

/-- Python `str()` applied to a `Union[str, List[str]]` value: the identity
on a `str`, the list repr on a `list`. -/
def pyStr : Sum String (List String) → String
  | Sum.inl s => s
  | Sum.inr l => pyListRepr l

mutual

/-- Embedding of `format_item` (source lines 30-39): a `str` is returned
verbatim; a `list` maps `str(format_item(...))` over its elements; any
other object is stringified and truncated to `ItemCapLength` characters
plus `"..."` when longer than the cap. -/
def format_item : Value → Sum String (List String)
  | Value.str s => Sum.inl s
  | Value.list items => Sum.inr (format_item_list items)
  | Value.obj text =>
      Sum.inl (if text.length > ItemCapLength
               then pySlice text ItemCapLength ++ "..."
               else text)

/-- The list comprehension `[str(format_item(list_item)) for list_item in
item]` of `format_item` (source line 34). -/
def format_item_list : List Value → List String
  | [] => []
  | v :: vs => pyStr (format_item v) :: format_item_list vs

end

/-- Embedding of one iteration of the row-building loop of
`RawTagTable.__init__` (source lines 71-78): a string result is one row
under the original key; a list result yields one row per element, the
first under the original key and element `idx ≥ 1` under key `"[idx]"`. -/
def processTag (key : String) (v : Value) : List (String × String) :=
  match format_item v with
  | Sum.inl value => [(key, value)]
  | Sum.inr value =>
      value.enum.map (fun p =>
        ((if p.1 = 0 then key else "[" ++ toString p.1 ++ "]"), p.2))

/-- The full `processed_list` built by `RawTagTable.__init__` (source
lines 70-78) from a tag list. -/
def processed_list (tags : List TagEntry) : List (String × String) :=
  match tags with
  | [] => []
  | (key, v) :: rest => processTag key v ++ processed_list rest

/-- One entry of the collected `FileDataMap` (source line 26):
`(base_filename, path, tag entries)`. -/
abbrev FileData := String × String × List TagEntry

/-- The display rows built for one collected record by
`RawInfoDialog.__init__` (source lines 135-139): a synthetic
`("path", path)` entry is prepended to the record's tag list before the
table rows are built. -/
def recordRows (rec : FileData) : List (String × String) :=
  processed_list (("path", Value.str rec.2.1) :: rec.2.2)

/-- A selection File item: `obj.filename` is its path and
`obj.base_filename` its tab label. -/
structure FileObj where
  filename : String
  base_filename : String
deriving DecidableEq

/-- One `log.error` record (source lines 161 and 173): the plugin only
ever logs at error level, with the message carrying the plugin name, the
failing path and the error text. -/
structure LogEntry where
  level : String
  message : String
deriving DecidableEq

/-- The error log message
`f"[{PLUGIN_NAME}] failure parsing file {path}: {e}"`. -/
def logMessage (path e : String) : String :=
  "[" ++ PLUGIN_NAME ++ "] failure parsing file " ++ path ++ ": " ++ e

/-- The mutable state of one `ShowRawTags.callback` invocation: the
collected `data`, the `seen_paths` set (a list observed only through
membership), and the emitted log. -/
structure CallbackState where
  data : List FileData
  seen_paths : List String
  log : List LogEntry

/-- The external tag parser boundary: `MutagenFile(path).items()` either
returns the ordered tag entries of the file at `path` or raises, embedded
as a pure `Except` function of the path. -/
abbrev ParseEnv := String → Except String (List TagEntry)

/-- The `File` branch of `parse_item` (source lines 152-163): skip when
the path was already seen; otherwise parse, appending a record on success
or logging on failure, and mark the path seen either way. -/
def parseFile (env : ParseEnv) (f : FileObj) (s : CallbackState) :
    CallbackState :=
  if f.filename ∈ s.seen_paths then s
  else
    match env f.filename with
    | Except.ok items =>
        { data := s.data ++ [(f.base_filename, f.filename, items)],
          seen_paths := f.filename :: s.seen_paths,
          log := s.log }
    | Except.error e =>
        { data := s.data,
          seen_paths := f.filename :: s.seen_paths,
          log := s.log ++ [⟨"error", logMessage f.filename e⟩] }

/-- The `Track` branch of `parse_item` (source lines 164-175): iterate the
track's files; an already-seen path executes `return`, ending the whole
loop; otherwise parse (append on success, log on failure), mark the path
seen, and continue with the next file. -/
def parseTrack (env : ParseEnv) (files : List FileObj) (s : CallbackState) :
    CallbackState :=
  match files with
  | [] => s
  | f :: rest =>
      if f.filename ∈ s.seen_paths then s
      else
        match env f.filename with
        | Except.ok items =>
            parseTrack env rest
              { data := s.data ++ [(f.base_filename, f.filename, items)],
                seen_paths := f.filename :: s.seen_paths,
                log := s.log }
        | Except.error e =>
            parseTrack env rest
              { data := s.data,
                seen_paths := f.filename :: s.seen_paths,
                log := s.log ++ [⟨"error", logMessage f.filename e⟩] }

/-- Modelled from the spec: the items yielded by the host-provided
`Album.iterfiles()` (the `Album` class is not in this repository).  Per
the spec they "may themselves be Track or File items". -/
inductive TrackFile where
  | file (f : FileObj)
  | track (files : List FileObj)

/-- A selection item handed to `ShowRawTags.callback`: a File, a Track
(with its owned files), or an Album (with the items its iterator yields). -/
inductive Item where
  | file (f : FileObj)
  | track (files : List FileObj)
  | album (items : List TrackFile)

/-- `parse_item` applied to an item yielded by `Album.iterfiles()`
(source line 178): the yielded item is a File or a Track, dispatched to
the corresponding branch. -/
def parseTrackFile (env : ParseEnv) (tf : TrackFile) (s : CallbackState) :
    CallbackState :=
  match tf with
  | TrackFile.file f => parseFile env f s
  | TrackFile.track files => parseTrack env files s

/-- Embedding of `parse_item` (source lines 151-178): dispatch on the
item kind; the `Album` branch folds `parse_item` over the items its
iterator yields. -/
def parse_item (env : ParseEnv) (obj : Item) (s : CallbackState) :
    CallbackState :=
  match obj with
  | Item.file f => parseFile env f s
  | Item.track files => parseTrack env files s
  | Item.album items =>
      items.foldl (fun s tf => parseTrackFile env tf s) s

/-- The loop `for obj in objs: parse_item(obj)` of `ShowRawTags.callback`
(source lines 180-181), from an arbitrary starting state. -/
def processItems (env : ParseEnv) (objs : List Item) (s : CallbackState) :
    CallbackState :=
  objs.foldl (fun s obj => parse_item env obj s) s

/-- A full `ShowRawTags.callback` run (source lines 147-181): empty data,
seen set and log, then every selected item processed in order. -/
def callbackRun (env : ParseEnv) (objs : List Item) : CallbackState :=
  processItems env objs ⟨[], [], []⟩

/-- The fold over File objects that `parse_item` performs on a selection
consisting only of File items. -/
def processFiles (env : ParseEnv) (fs : List FileObj) (s : CallbackState) :
    CallbackState :=
  fs.foldl (fun s f => parseFile env f s) s

/-- The paths of a list of collected records, in order. -/
def pathsOf (data : List FileData) : List String :=
  data.map (fun rec => rec.2.1)

/-- Whether the parser succeeds on a path. -/
def parseOk (env : ParseEnv) (p : String) : Bool :=
  match env p with
  | Except.ok _ => true
  | Except.error _ => false

/-- The first occurrence of each path in a list, in order, skipping paths
in `seen`: the order in which the seen-set dedup admits paths. -/
def firstOccurrences (seen : List String) : List String → List String
  | [] => []
  | p :: ps =>
      if p ∈ seen then firstOccurrences seen ps
      else p :: firstOccurrences (p :: seen) ps

/-- Flattening the items yielded by an Album into its constituent Files
(via Tracks where applicable), following the spec's words for the
refinement comparison of the Album branch. -/
def flattenItems (items : List TrackFile) : List FileObj :=
  match items with
  | [] => []
  | TrackFile.file f :: rest => f :: flattenItems rest
  | TrackFile.track files :: rest => files ++ flattenItems rest

/-- Sample parser succeeding with an empty tag list on every path. -/
def envOk : ParseEnv := fun _ => Except.ok []

/-- Sample parser failing with error text "boom" on every path. -/
def envErr : ParseEnv := fun _ => Except.error "boom"

/-- Sample file with path "p1". -/
def fA : FileObj := ⟨"p1", "F1.mp3"⟩

/-- Sample file with path "p2". -/
def fB : FileObj := ⟨"p2", "F2.mp3"⟩

/-- A 1001-character textual representation, for exercising truncation. -/
def bigText : String := String.mk (List.replicate 1001 'a')

/-! Helper lemmas shared by the claim theorems. -/

/-- The list branch of `format_item` is the map of `str(format_item(...))`
over the elements. -/
theorem format_item_list_eq_map (vs : List Value) :
    format_item_list vs = vs.map (fun v => pyStr (format_item v)) := by
  induction vs with
  | nil => rfl
  | cons v vs ih => simp [format_item_list, ih]

/-- Length of the Python slice `s[:n]`. -/
theorem pySlice_length (s : String) (n : Nat) :
    (pySlice s n).length = min n s.length := by
  cases s with
  | mk data => simp [pySlice, String.toList]

/-- Length of the text `format_item` produces for an opaque value: the
input length up to the cap, and `1003` (the cap plus the three-character
ellipsis) beyond it. -/
theorem format_obj_length (text : String) :
    ∃ t, format_item (Value.obj text) = Sum.inl t ∧
      t.length = if text.length ≤ ItemCapLength then text.length else 1003 := by
  by_cases h : text.length ≤ ItemCapLength
  · refine ⟨text, ?_, by rw [if_pos h]⟩
    have hnot : ¬ text.length > ItemCapLength := not_lt.mpr h
    simp [format_item, hnot]
  · have hgt : text.length > ItemCapLength := not_le.mp h
    refine ⟨pySlice text ItemCapLength ++ "...", ?_, ?_⟩
    · simp [format_item, hgt]
    · rw [String.length_append, pySlice_length, if_neg h]
      have h3 : "...".length = 3 := rfl
      have hmin : min ItemCapLength text.length = ItemCapLength :=
        Nat.min_eq_left (Nat.le_of_lt hgt)
      rw [h3, hmin]
      rfl

/-! Claim theorems about the formatter and the display rows. -/

/-- C1 (counterexample): at an opaque value whose textual form has length
1001 (> 1000), the displayed text has length 1003, not at most 1001 — the
ellipsis marker `"..."` is three characters long. -/
theorem format_item_truncation_counterexample :
    bigText.length > 1000 ∧
    ∃ t, format_item (Value.obj bigText) = Sum.inl t ∧ ¬ t.length ≤ 1001 := by
  have hlen : bigText.length = 1001 := by
    have hb : bigText = String.mk (List.replicate 1001 (Char.ofNat 97)) := rfl
    rw [hb, String.length_mk, List.length_replicate]
  refine ⟨by omega, ?_⟩
  obtain ⟨t, ht, hl⟩ := format_obj_length bigText
  rw [hlen] at hl
  simp [ItemCapLength] at hl
  exact ⟨t, ht, by omega⟩

/-- C1 (amended): for every opaque (non-text, non-sequence) tag value
whose textual form has length `L`, the formatted display text has length
exactly `L` when `L ≤ 1000` and exactly `1003` (the 1000-character cap
plus the three-character ellipsis marker `"..."`) when `L > 1000`. -/
theorem format_item_truncation_law (text : String) :
    ∃ t, format_item (Value.obj text) = Sum.inl t ∧
      t.length = if text.length ≤ 1000 then text.length else 1003 := by
  have h := format_obj_length text
  simpa [ItemCapLength] using h

/-- C9: a tag entry whose value is already a string is emitted as exactly
one display row, keyed by the original tag key, with the string verbatim
as the display value — in particular no truncation is applied, whatever
the string's length. -/
theorem string_value_verbatim (key s : String) :
    processTag key (Value.str s) = [(key, s)] := by
  simp [processTag, format_item]

/-- C7: the display-row sequence of every collected record begins with a
row keyed "path" whose value is the record's file path, whatever tag
entries the parsing library returned. -/
theorem record_rows_path_first (rec : FileData) :
    (recordRows rec).head? = some ("path", rec.2.1) := by
  simp [recordRows, processed_list, processTag, format_item]

/-- C8: a tag entry whose value is a list of strings yields exactly one
display row per element; the first element keeps the original key and the
element at position `i ≥ 1` is keyed `"[i]"`; in particular the value
consisting of the strings "a", "b", "c" under key "K" yields the rows
("K", "a"), ("[1]", "b"), ("[2]", "c"). -/
theorem list_of_strings_expansion (key : String) (ss : List String) :
    processTag key (Value.list (ss.map Value.str))
      = ss.enum.map (fun p =>
          ((if p.1 = 0 then key else "[" ++ toString p.1 ++ "]"), p.2))
    ∧ processTag "K" (Value.list [Value.str "a", Value.str "b", Value.str "c"])
      = [("K", "a"), ("[1]", "b"), ("[2]", "c")] := by
  refine ⟨?_, by decide⟩
  have hmap : (ss.map Value.str).map (fun v => pyStr (format_item v)) = ss := by
    rw [List.map_map]
    have : (fun v => pyStr (format_item v)) ∘ Value.str = id := by
      funext s
      simp [format_item, pyStr]
    rw [this, List.map_id]
  simp [processTag, format_item, format_item_list_eq_map, hmap]

/-- C10: list expansion happens only at the top level of a tag value:
`format_item` on a list returns one flat string per top-level element
(`str(format_item(...))` of the element), so a nested list element
produces a single row whose display text is the Python string
representation of the list of its formatted elements, and an empty
top-level list produces zero display rows. -/
theorem list_expansion_top_level_only (key : String) (vs : List Value) :
    format_item (Value.list vs)
        = Sum.inr (vs.map (fun v => pyStr (format_item v)))
    ∧ (processTag key (Value.list vs)).length = vs.length
    ∧ (processTag key (Value.list vs)).map Prod.snd
        = vs.map (fun v => pyStr (format_item v))
    ∧ processTag key (Value.list []) = []
    ∧ ∀ ws : List Value,
        pyStr (format_item (Value.list ws))
          = pyListRepr (ws.map (fun v => pyStr (format_item v))) := by
  refine ⟨?_, ?_, ?_, ?_, ?_⟩
  · simp [format_item, format_item_list_eq_map]
  · simp [processTag, format_item, format_item_list_eq_map]
  · rw [show processTag key (Value.list vs)
        = (vs.map (fun v => pyStr (format_item v))).enum.map (fun p =>
            ((if p.1 = 0 then key else "[" ++ toString p.1 ++ "]"), p.2))
      from by simp [processTag, format_item, format_item_list_eq_map]]
    rw [List.map_map]
    exact List.enum_map_snd _
  · simp [processTag, format_item, format_item_list]
  · intro ws
    simp [format_item, format_item_list_eq_map, pyStr]

/-! Helper lemmas about the collector. -/

/-- A selection of File items is processed by folding the File branch. -/
theorem processItems_file_map (env : ParseEnv) (fs : List FileObj)
    (s : CallbackState) :
    processItems env (fs.map Item.file) s = processFiles env fs s := by
  simp [processItems, processFiles, List.foldl_map, parse_item]

/-- Unfolding of `processFiles` on a cons cell. -/
theorem processFiles_cons (env : ParseEnv) (f : FileObj) (rest : List FileObj)
    (s : CallbackState) :
    processFiles env (f :: rest) s = processFiles env rest (parseFile env f s) :=
  rfl

/-- A path admitted by `firstOccurrences` was not in the seen set. -/
theorem mem_firstOccurrences_not_seen (ps : List String) :
    ∀ seen p, p ∈ firstOccurrences seen ps → p ∉ seen := by
  induction ps with
  | nil =>
      intro seen p h
      simp [firstOccurrences] at h
  | cons q ps ih =>
      intro seen p h
      by_cases hq : q ∈ seen
      · rw [firstOccurrences, if_pos hq] at h
        exact ih seen p h
      · rw [firstOccurrences, if_neg hq] at h
        rcases List.mem_cons.mp h with rfl | h
        · exact hq
        · intro hp
          exact ih (q :: seen) p h (List.mem_cons_of_mem _ hp)

/-- The list of first occurrences has no duplicates. -/
theorem firstOccurrences_nodup (ps : List String) :
    ∀ seen, (firstOccurrences seen ps).Nodup := by
  induction ps with
  | nil =>
      intro seen
      simp [firstOccurrences]
  | cons q ps ih =>
      intro seen
      by_cases hq : q ∈ seen
      · rw [firstOccurrences, if_pos hq]
        exact ih seen
      · rw [firstOccurrences, if_neg hq]
        refine List.nodup_cons.mpr ⟨?_, ih (q :: seen)⟩
        intro hmem
        exact mem_firstOccurrences_not_seen ps (q :: seen) q hmem
          (List.mem_cons_self q seen)

/-- Characterization of a run over File items: the collected record paths
are the first occurrences of the selection's paths (relative to the seen
set) restricted to successfully parsed ones, appended to the records
already present; the seen set afterwards holds exactly the old seen paths
and the selection's paths. -/
theorem processFiles_spec (env : ParseEnv) (fs : List FileObj) :
    ∀ s : CallbackState,
      pathsOf (processFiles env fs s).data
        = pathsOf s.data
          ++ (firstOccurrences s.seen_paths (fs.map FileObj.filename)).filter
               (fun p => parseOk env p)
      ∧ ∀ p, p ∈ (processFiles env fs s).seen_paths ↔
          p ∈ s.seen_paths ∨ p ∈ fs.map FileObj.filename := by
  induction fs with
  | nil =>
      intro s
      simp [processFiles, firstOccurrences]
  | cons f rest ih =>
      intro s
      rw [processFiles_cons]
      by_cases hm : f.filename ∈ s.seen_paths
      · rw [show parseFile env f s = s from by simp [parseFile, hm]]
        obtain ⟨hpaths, hseen⟩ := ih s
        refine ⟨?_, ?_⟩
        · rw [hpaths, List.map_cons, firstOccurrences, if_pos hm]
        · intro p
          rw [hseen p, List.map_cons, List.mem_cons]
          constructor
          · rintro (h | h)
            · exact Or.inl h
            · exact Or.inr (Or.inr h)
          · rintro (h | rfl | h)
            · exact Or.inl h
            · exact Or.inl hm
            · exact Or.inr h
      · cases heq : env f.filename with
        | ok items =>
            rw [show parseFile env f s
                  = ⟨s.data ++ [(f.base_filename, f.filename, items)],
                     f.filename :: s.seen_paths, s.log⟩
                from by simp [parseFile, hm, heq]]
            obtain ⟨hpaths, hseen⟩ :=
              ih ⟨s.data ++ [(f.base_filename, f.filename, items)],
                  f.filename :: s.seen_paths, s.log⟩
            refine ⟨?_, ?_⟩
            · rw [hpaths]
              have hok : parseOk env f.filename = true := by
                simp [parseOk, heq]
              simp only [pathsOf, List.map_append, List.map_cons,
                List.map_nil, List.map]
              rw [firstOccurrences, if_neg hm, List.filter_cons]
              simp [hok, List.append_assoc]
            · intro p
              rw [hseen p, List.mem_cons, List.map_cons, List.mem_cons]
              constructor
              · rintro ((rfl | h) | h)
                · exact Or.inr (Or.inl rfl)
                · exact Or.inl h
                · exact Or.inr (Or.inr h)
              · rintro (h | rfl | h)
                · exact Or.inl (Or.inr h)
                · exact Or.inl (Or.inl rfl)
                · exact Or.inr h
        | error e =>
            rw [show parseFile env f s
                  = ⟨s.data, f.filename :: s.seen_paths,
                     s.log ++ [⟨"error", logMessage f.filename e⟩]⟩
                from by simp [parseFile, hm, heq]]
            obtain ⟨hpaths, hseen⟩ :=
              ih ⟨s.data, f.filename :: s.seen_paths,
                  s.log ++ [⟨"error", logMessage f.filename e⟩]⟩
            refine ⟨?_, ?_⟩
            · rw [hpaths]
              have hok : parseOk env f.filename = false := by
                simp [parseOk, heq]
              simp only [List.map_cons]
              rw [firstOccurrences, if_neg hm, List.filter_cons]
              simp [hok]
            · intro p
              rw [hseen p, List.mem_cons, List.map_cons, List.mem_cons]
              constructor
              · rintro ((rfl | h) | h)
                · exact Or.inr (Or.inl rfl)
                · exact Or.inl h
                · exact Or.inr (Or.inr h)
              · rintro (h | rfl | h)
                · exact Or.inl (Or.inr h)
                · exact Or.inl (Or.inl rfl)
                · exact Or.inr h

/-- A record path present after the File branch was already present or
parses successfully. -/
theorem mem_paths_parseFile (env : ParseEnv) (f : FileObj) (s : CallbackState)
    (q : String) (h : q ∈ pathsOf (parseFile env f s).data) :
    q ∈ pathsOf s.data ∨ parseOk env q = true := by
  by_cases hm : f.filename ∈ s.seen_paths
  · rw [show parseFile env f s = s from by simp [parseFile, hm]] at h
    exact Or.inl h
  · cases heq : env f.filename with
    | ok items =>
        rw [show parseFile env f s
              = ⟨s.data ++ [(f.base_filename, f.filename, items)],
                 f.filename :: s.seen_paths, s.log⟩
            from by simp [parseFile, hm, heq]] at h
        simp only [pathsOf, List.map_append] at h
        rcases List.mem_append.mp h with h | h
        · exact Or.inl h
        · simp only [List.map_cons, List.map_nil, List.mem_singleton] at h
          subst h
          exact Or.inr (by simp [parseOk, heq])
    | error e =>
        rw [show parseFile env f s
              = ⟨s.data, f.filename :: s.seen_paths,
                 s.log ++ [⟨"error", logMessage f.filename e⟩]⟩
            from by simp [parseFile, hm, heq]] at h
        exact Or.inl h

/-- A record path present after the Track branch was already present or
parses successfully. -/
theorem mem_paths_parseTrack (env : ParseEnv) (files : List FileObj) :
    ∀ s q, q ∈ pathsOf (parseTrack env files s).data →
      q ∈ pathsOf s.data ∨ parseOk env q = true := by
  induction files with
  | nil =>
      intro s q h
      exact Or.inl h
  | cons f rest ih =>
      intro s q h
      by_cases hm : f.filename ∈ s.seen_paths
      · rw [show parseTrack env (f :: rest) s = s
            from by simp [parseTrack, hm]] at h
        exact Or.inl h
      · cases heq : env f.filename with
        | ok items =>
            rw [show parseTrack env (f :: rest) s
                  = parseTrack env rest
                      ⟨s.data ++ [(f.base_filename, f.filename, items)],
                       f.filename :: s.seen_paths, s.log⟩
                from by simp [parseTrack, hm, heq]] at h
            rcases ih _ q h with h2 | h2
            · simp only [pathsOf, List.map_append] at h2
              rcases List.mem_append.mp h2 with h3 | h3
              · exact Or.inl h3
              · simp only [List.map_cons, List.map_nil,
                  List.mem_singleton] at h3
                subst h3
                exact Or.inr (by simp [parseOk, heq])
            · exact Or.inr h2
        | error e =>
            rw [show parseTrack env (f :: rest) s
                  = parseTrack env rest
                      ⟨s.data, f.filename :: s.seen_paths,
                       s.log ++ [⟨"error", logMessage f.filename e⟩]⟩
                from by simp [parseTrack, hm, heq]] at h
            rcases ih ⟨s.data, f.filename :: s.seen_paths,
                s.log ++ [⟨"error", logMessage f.filename e⟩]⟩ q h with h2 | h2
            · exact Or.inl h2
            · exact Or.inr h2

/-- A record path present after one Album-yielded item was already present
or parses successfully. -/
theorem mem_paths_parseTrackFile (env : ParseEnv) (tf : TrackFile)
    (s : CallbackState) (q : String)
    (h : q ∈ pathsOf (parseTrackFile env tf s).data) :
    q ∈ pathsOf s.data ∨ parseOk env q = true := by
  cases tf with
  | file f => exact mem_paths_parseFile env f s q h
  | track files => exact mem_paths_parseTrack env files s q h

/-- A record path present after any selection item was already present or
parses successfully. -/
theorem mem_paths_parse_item (env : ParseEnv) (obj : Item) :
    ∀ s q, q ∈ pathsOf (parse_item env obj s).data →
      q ∈ pathsOf s.data ∨ parseOk env q = true := by
  cases obj with
  | file f => exact fun s q h => mem_paths_parseFile env f s q h
  | track files => exact fun s q h => mem_paths_parseTrack env files s q h
  | album items =>
      induction items with
      | nil =>
          intro s q h
          exact Or.inl h
      | cons tf rest ih =>
          intro s q h
          rw [show parse_item env (Item.album (tf :: rest)) s
                = parse_item env (Item.album rest) (parseTrackFile env tf s)
              from rfl] at h
          rcases ih (parseTrackFile env tf s) q h with h2 | h2
          · exact mem_paths_parseTrackFile env tf s q h2
          · exact Or.inr h2

/-- A record path present after a whole run was already present or parses
successfully. -/
theorem mem_paths_processItems (env : ParseEnv) (objs : List Item) :
    ∀ s q, q ∈ pathsOf (processItems env objs s).data →
      q ∈ pathsOf s.data ∨ parseOk env q = true := by
  induction objs with
  | nil =>
      intro s q h
      exact Or.inl h
  | cons obj rest ih =>
      intro s q h
      rw [show processItems env (obj :: rest) s
            = processItems env rest (parse_item env obj s) from rfl] at h
      rcases ih (parse_item env obj s) q h with h2 | h2
      · exact mem_paths_parse_item env obj s q h2
      · exact Or.inr h2

/-! Claim theorems about the collector. -/

/-- C3: in the Track branch, encountering a file whose path is already in
the seen set executes `return`, so the whole invocation of the branch
stops: none of the remaining files of that Track produce records (or any
other state change) in that invocation. -/
theorem track_duplicate_terminates (env : ParseEnv) (f : FileObj)
    (rest : List FileObj) (s : CallbackState)
    (h : f.filename ∈ s.seen_paths) :
    parseTrack env (f :: rest) s = s := by
  simp [parseTrack, h]

/-- Witness for C3 at a concrete track whose first file was already seen:
the second file is not processed either. -/
theorem track_duplicate_terminates_witness :
    fA.filename ∈ (["p1"] : List String) ∧
      parseTrack envOk [fA, fB] ⟨[], ["p1"], []⟩ = ⟨[], ["p1"], []⟩ :=
  ⟨by decide,
   track_duplicate_terminates envOk fA [fB] ⟨[], ["p1"], []⟩ (by decide)⟩

/-- C4: on a selection consisting only of File items, the collected record
paths are exactly the first occurrences of the selection's paths that
parse successfully — so there is at most one record per unique path
(the path list has no duplicates) and records appear in first-occurrence
order. -/
theorem files_only_dedup_order (env : ParseEnv) (fs : List FileObj) :
    pathsOf (callbackRun env (fs.map Item.file)).data
      = (firstOccurrences [] (fs.map FileObj.filename)).filter
          (fun p => parseOk env p)
    ∧ (pathsOf (callbackRun env (fs.map Item.file)).data).Nodup := by
  have hrun : callbackRun env (fs.map Item.file)
      = processFiles env fs ⟨[], [], []⟩ := by
    rw [callbackRun, processItems_file_map]
  obtain ⟨hpaths, _⟩ := processFiles_spec env fs ⟨[], [], []⟩
  constructor
  · rw [hrun, hpaths]
    simp [pathsOf]
  · rw [hrun, hpaths]
    simp only [pathsOf, List.map_nil, List.nil_append]
    exact List.Nodup.filter _ (firstOccurrences_nodup _ [])

/-- C5: a File whose parse raises an error leaves the collected data
unchanged (the result set of any full run excludes the failing path),
appends exactly one error-level log entry whose message carries the
plugin name, the path and the error text, and processing continues with
the remaining items; in the embedding the step is a total function, so no
exception propagates. -/
theorem parse_failure_logged (env : ParseEnv) (f : FileObj)
    (s : CallbackState) (rest : List Item) (e : String)
    (hseen : f.filename ∉ s.seen_paths)
    (herr : env f.filename = Except.error e) :
    parse_item env (Item.file f) s
        = ⟨s.data, f.filename :: s.seen_paths,
           s.log ++ [⟨"error", logMessage f.filename e⟩]⟩
    ∧ processItems env (Item.file f :: rest) s
        = processItems env rest
            ⟨s.data, f.filename :: s.seen_paths,
             s.log ++ [⟨"error", logMessage f.filename e⟩]⟩
    ∧ ∀ objs : List Item, f.filename ∉ pathsOf (callbackRun env objs).data := by
  have hstep : parse_item env (Item.file f) s
      = ⟨s.data, f.filename :: s.seen_paths,
         s.log ++ [⟨"error", logMessage f.filename e⟩]⟩ := by
    simp [parse_item, parseFile, hseen, herr]
  refine ⟨hstep, ?_, ?_⟩
  · rw [show processItems env (Item.file f :: rest) s
        = processItems env rest (parse_item env (Item.file f) s) from rfl,
      hstep]
  · intro objs hmem
    rcases mem_paths_processItems env objs ⟨[], [], []⟩ f.filename hmem
      with h2 | h2
    · simp [pathsOf] at h2
    · rw [parseOk, herr] at h2
      exact Bool.false_ne_true h2

/-- Witness for C5 at a concrete failing file. -/
theorem parse_failure_logged_witness :
    fA.filename ∉ ([] : List String)
    ∧ envErr fA.filename = Except.error "boom"
    ∧ (parse_item envErr (Item.file fA) ⟨[], [], []⟩
          = ⟨[], [fA.filename],
             [⟨"error", logMessage fA.filename "boom"⟩]⟩
       ∧ processItems envErr (Item.file fA :: [Item.file fB]) ⟨[], [], []⟩
          = processItems envErr [Item.file fB]
              ⟨[], [fA.filename],
               [⟨"error", logMessage fA.filename "boom"⟩]⟩
       ∧ ∀ objs : List Item,
           fA.filename ∉ pathsOf (callbackRun envErr objs).data) :=
  ⟨by decide, rfl,
   parse_failure_logged envErr fA ⟨[], [], []⟩ [Item.file fB] "boom"
     (by decide) rfl⟩

/-- C6: a path whose parse fails is still added to the seen set, so a
File with that path referenced again later in the same invocation is
skipped entirely (no retry, no record), in both the File branch and the
Track branch. -/
theorem failed_path_marked_seen (env : ParseEnv) (f g : FileObj)
    (s sl : CallbackState) (rest : List FileObj) (e : String)
    (herr : env f.filename = Except.error e)
    (hg : g.filename = f.filename)
    (hseen : f.filename ∈ sl.seen_paths) :
    f.filename ∈ (parse_item env (Item.file f) s).seen_paths
    ∧ (parse_item env (Item.file f) s).data = s.data
    ∧ parse_item env (Item.file g) sl = sl
    ∧ parseTrack env (g :: rest) sl = sl := by
  refine ⟨?_, ?_, ?_, ?_⟩
  · by_cases hm : f.filename ∈ s.seen_paths
    · rw [show parse_item env (Item.file f) s = s
          from by simp [parse_item, parseFile, hm]]
      exact hm
    · rw [show parse_item env (Item.file f) s
          = ⟨s.data, f.filename :: s.seen_paths,
             s.log ++ [⟨"error", logMessage f.filename e⟩]⟩
          from by simp [parse_item, parseFile, hm, herr]]
      exact List.mem_cons_self _ _
  · by_cases hm : f.filename ∈ s.seen_paths
    · rw [show parse_item env (Item.file f) s = s
          from by simp [parse_item, parseFile, hm]]
    · rw [show parse_item env (Item.file f) s
          = ⟨s.data, f.filename :: s.seen_paths,
             s.log ++ [⟨"error", logMessage f.filename e⟩]⟩
          from by simp [parse_item, parseFile, hm, herr]]
  · have : g.filename ∈ sl.seen_paths := by rw [hg]; exact hseen
    simp [parse_item, parseFile, this]
  · have : g.filename ∈ sl.seen_paths := by rw [hg]; exact hseen
    simp [parseTrack, this]

/-- Witness for C6 at a concrete failing file referenced again. -/
theorem failed_path_marked_seen_witness :
    envErr fA.filename = Except.error "boom"
    ∧ fA.filename = fA.filename
    ∧ fA.filename ∈ (["p1"] : List String)
    ∧ (fA.filename ∈
         (parse_item envErr (Item.file fA) ⟨[], [], []⟩).seen_paths
       ∧ (parse_item envErr (Item.file fA) ⟨[], [], []⟩).data = []
       ∧ parse_item envErr (Item.file fA) ⟨[], ["p1"], []⟩
           = ⟨[], ["p1"], []⟩
       ∧ parseTrack envErr [fA, fB] ⟨[], ["p1"], []⟩ = ⟨[], ["p1"], []⟩) :=
  ⟨rfl, rfl, by decide,
   failed_path_marked_seen envErr fA fA ⟨[], [], []⟩ ⟨[], ["p1"], []⟩ [fB]
     "boom" rfl rfl (by decide)⟩

/-- C2 (counterexample): an Album whose iterator yields a Track containing
an already-seen file followed by a fresh one collects different records
than processing the Album's flattened Files with the same dedup rule —
the Track branch's early `return` drops the fresh file. -/
theorem album_flattening_counterexample :
    callbackRun envOk [Item.album [TrackFile.track [fA, fA, fB]]]
      ≠ callbackRun envOk
          ((flattenItems [TrackFile.track [fA, fA, fB]]).map Item.file) := by
  intro h
  have h2 := congrArg (fun st => pathsOf st.data) h
  revert h2
  decide

/-- C2 (amended): for every selection containing an Album all of whose
yielded items are Files, the collected result equals the result of
replacing the Album by its flattened sequence of Files, processed with
the same first-occurrence deduplication rule (with Track items the
equivalence can fail, by the Track branch's early return on an
already-seen path). -/
theorem album_flattening_equivalence (env : ParseEnv) (pre post : List Item)
    (fs : List FileObj) :
    callbackRun env (pre ++ Item.album (fs.map TrackFile.file) :: post)
      = callbackRun env (pre ++ fs.map Item.file ++ post) := by
  have key : ∀ s : CallbackState,
      parse_item env (Item.album (fs.map TrackFile.file)) s
        = (fs.map Item.file).foldl (fun s obj => parse_item env obj s) s := by
    intro s
    simp [parse_item, parseTrackFile, List.foldl_map]
  unfold callbackRun processItems
  simp only [List.foldl_append, List.foldl_cons]
  rw [key]
